import Mathlib

/-
  Verification of the fc reflection header (include/fc/reflect/reflect.hpp).

  The header is a compile-time reflection registry: FC_REFLECT_DERIVED
  specializes fc::reflector<T> for a struct-like type with a declared base
  list and member list, generating a visit function, local_member_count and
  total_member_count; FC_REFLECT_ENUM specializes fc::reflector<E> for an
  enum, generating visit, to_string and from_string.

  Shallow embedding: a registration is data (StructDecl / EnumDecl); the
  generated visit functions are modelled as functions producing the exact
  ordered trace of visitor invocations, each invocation carrying exactly the
  data the macro passes to the visitor.
-/

namespace FcReflect

/-- A member declaration of a struct-like type: the declared name (the token
the registration macro stringizes) and its static type
(decltype of the member access in FC_REFLECT_VISIT_MEMBER), modelled as a
type tag. -/
structure Member where
  name : String
  ty : String
deriving Repr, DecidableEq

/-- A struct registration, as supplied to FC_REFLECT_DERIVED: the type name,
the ordered base list (each base itself registered, since
FC_REFLECT_VISIT_BASE delegates to fc::reflector of the base), and the
ordered own-member list. -/
inductive StructDecl : Type where
  | mk : String → List StructDecl → List Member → StructDecl

/-- One visitor invocation produced by FC_REFLECT_VISIT_MEMBER:
visitor.operator()<member_type, type, address-of type::elem>(stringize(elem)).
The accessor is the pointer-to-member, bound to the exact member slot:
modelled as the pair of the enclosing type name and the member name. -/
structure VisitEvent where
  name : String
  memberType : String
  enclosing : String
  accessor : String × String
deriving Repr, DecidableEq

mutual

/-- The visit function generated by FC_REFLECT_DERIVED_IMPL_INLINE:
BOOST_PP_SEQ_FOR_EACH( FC_REFLECT_VISIT_BASE, v, INHERITS ) then
BOOST_PP_SEQ_FOR_EACH( FC_REFLECT_VISIT_MEMBER, v, MEMBERS ): each base is
visited recursively, in declared order, then every own member in
declaration order. -/
def StructDecl.visit : StructDecl → List VisitEvent
  | .mk n bases members =>
      visitBases bases ++
        members.map (fun m => VisitEvent.mk m.name m.ty n (n, m.name))

/-- The FC_REFLECT_VISIT_BASE expansion for a base list: delegation to
fc::reflector of each base, in order. -/
def visitBases : List StructDecl → List VisitEvent
  | [] => []
  | b :: rest => StructDecl.visit b ++ visitBases rest

end

/-- local_member_count of the member_count_enum: BOOST_PP_SEQ_SIZE(MEMBERS). -/
def localMemberCount : StructDecl → Nat
  | .mk _ _ members => members.length

mutual

/-- total_member_count of the member_count_enum: local_member_count followed
by FC_REFLECT_BASE_MEMBER_COUNT terms, one plus fc::reflector of each base,
in order. -/
def totalMemberCount : StructDecl → Nat
  | .mk _ bases members => members.length + basesMemberCount bases

/-- The sum produced by the FC_REFLECT_BASE_MEMBER_COUNT seq-for-each. -/
def basesMemberCount : List StructDecl → Nat
  | [] => 0
  | b :: rest => totalMemberCount b + basesMemberCount rest

end

/-- An enum registration, as supplied to FC_REFLECT_ENUM: the enum type name
and the ordered enumerator list; each enumerator carries its declared name
(the stringized token) and its own defined underlying value
(the value of enum_type::elem). -/
structure EnumDecl where
  name : String
  fields : List (String × Int)
deriving Repr, DecidableEq

/-- The bad-enum-cast failure raised by fc::throw_bad_enum_cast:
either an int64_t value plus the registered enum type name, or a
string plus the registered enum type name. -/
inductive EnumCastError where
  | badValue : Int → String → EnumCastError
  | badName : String → String → EnumCastError
deriving Repr, DecidableEq

/-- The case sequence of the generated to_string: FC_REFLECT_ENUM_TO_STRING
produces one case per enumerator returning its stringized name; the default
raises the bad-enum-cast failure with the value and the enum name. C++
requires the case values to be distinct, under which a switch is the same
as a first-match scan. Modelled from the spec: fc::throw_bad_enum_cast is
only declared in the header, and per the spec it signals the failure to the
caller rather than returning, so the default branch is an error result. -/
def toStringCases (en : String) (i : Int) : List (String × Int) → Except EnumCastError String
  | [] => .error (.badValue i en)
  | f :: rest => if f.2 = i then .ok f.1 else toStringCases en i rest

/-- The to_string of the FC_REFLECT_ENUM specialization. -/
def EnumDecl.to_string (e : EnumDecl) (i : Int) : Except EnumCastError String :=
  toStringCases e.name i e.fields

/-- The scan of the generated from_string: FC_REFLECT_ENUM_FROM_STRING
produces, per enumerator in declaration order, a strcmp of the argument
against the stringized name, returning the enumerator on equality; after
all of them, the bad-enum-cast failure is raised with the string and the
enum name. Modelled from the spec: fc::throw_bad_enum_cast is only declared
in the header, and per the spec it signals the failure to the caller rather
than returning. -/
def fromStringScan (en : String) (s : String) : List (String × Int) → Except EnumCastError Int
  | [] => .error (.badName s en)
  | f :: rest => if f.1 = s then .ok f.2 else fromStringScan en s rest

/-- The from_string of the FC_REFLECT_ENUM specialization. -/
def EnumDecl.from_string (e : EnumDecl) (s : String) : Except EnumCastError Int :=
  fromStringScan e.name s e.fields

/-- The to_string case sequence under the alternative reading in which
throw_bad_enum_cast returns control: the function then falls through to
the trailing statement return nullptr, modelled as none. -/
def toStringCasesRet (i : Int) : List (String × Int) → Option String
  | [] => none
  | f :: rest => if f.2 = i then some f.1 else toStringCasesRet i rest

/-- to_string when the bad-enum-cast signal returns control. -/
def EnumDecl.toStringRet (e : EnumDecl) (i : Int) : Option String :=
  toStringCasesRet i e.fields

/-- The from_string scan under the alternative reading in which
throw_bad_enum_cast returns control: the function then executes
return ENUM(), the value-initialized enum, whose underlying value is 0. -/
def fromStringScanRet (s : String) : List (String × Int) → Int
  | [] => 0
  | f :: rest => if f.1 = s then f.2 else fromStringScanRet s rest

/-- from_string when the bad-enum-cast signal returns control. -/
def EnumDecl.fromStringRet (e : EnumDecl) (s : String) : Int :=
  fromStringScanRet s e.fields

/-- One visitor invocation produced by FC_REFLECT_VISIT_ENUM:
v.operator()<enum_type::elem>(stringize(elem)): the enumerator value as a
template argument and its declared name as the runtime string. -/
structure EnumVisitEvent where
  value : Int
  name : String
deriving Repr, DecidableEq

/-- The visit function of the FC_REFLECT_ENUM specialization: one
FC_REFLECT_VISIT_ENUM invocation per enumerator, in declaration order. -/
def EnumDecl.visitTrace (e : EnumDecl) : List EnumVisitEvent :=
  e.fields.map (fun f => EnumVisitEvent.mk f.2 f.1)

/-- What was registered for a type, if anything: FC_REFLECT_DERIVED for a
struct-like type, or FC_REFLECT_ENUM for an enum. -/
inductive Registration where
  | structReg : StructDecl → Registration
  | enumReg : EnumDecl → Registration

/-- The surface of a fc::reflector specialization: the flags every
specialization declares, and, as options, the operations only some
specializations declare (none models an operation the specialization does
not define, so that using it fails to compile). -/
structure Descriptor where
  is_defined : Bool
  is_enum : Bool
  memberCounts : Option (Nat × Nat)
  structVisit : Option (List VisitEvent)
  enumVisit : Option (List EnumVisitEvent)
deriving Repr, DecidableEq

/-- fc::reflector resolved for a type with the given registration state.
The primary template declares is_defined and is_enum as false_type and no
visit or member counts; FC_REFLECT_DERIVED declares is_defined true_type,
is_enum false_type, the member_count_enum pair (local, total) and the
struct visit; FC_REFLECT_ENUM declares is_defined and is_enum true_type
and the enumerator visit and no member counts. -/
def reflector : Option Registration → Descriptor
  | none => Descriptor.mk false false none none none
  | some (.structReg d) =>
      Descriptor.mk true false (some (localMemberCount d, totalMemberCount d))
        (some d.visit) none
  | some (.enumReg e) =>
      Descriptor.mk true true none none (some e.visitTrace)

/-- The query is_reflectable(T): reads reflector of T at is_defined. -/
def is_reflectable (r : Option Registration) : Bool :=
  (reflector r).is_defined

/-- Concrete registration used by witnesses: FC_REFLECT_ENUM( Color,
(Red)(Green)(Blue) ) with Red = 0, Green = 1, Blue = 2. -/
def colorDecl : EnumDecl :=
  EnumDecl.mk "Color" [("Red", 0), ("Green", 1), ("Blue", 2)]

/-- Concrete registration used by witnesses: FC_REFLECT( Point, (x)(y) )
with double members. -/
def pointDecl : StructDecl :=
  StructDecl.mk "Point" [] [Member.mk "x" "double", Member.mk "y" "double"]

/-- Concrete registration used by witnesses: FC_REFLECT_DERIVED( Point3D,
(Point), (z) ). -/
def point3dDecl : StructDecl :=
  StructDecl.mk "Point3D" [pointDecl] [Member.mk "z" "double"]

/-! Helper lemmas shared by the claim theorems. -/

theorem visitBases_eq_join (l : List StructDecl) :
    visitBases l = (l.map StructDecl.visit).flatten := by
  induction l with
  | nil => rfl
  | cons b rest ih => simp [visitBases, ih]

theorem basesMemberCount_eq_sum (l : List StructDecl) :
    basesMemberCount l = (l.map totalMemberCount).sum := by
  induction l with
  | nil => rfl
  | cons b rest ih => simp [basesMemberCount, ih]

mutual

theorem visit_length : ∀ d : StructDecl,
    (StructDecl.visit d).length = totalMemberCount d
  | .mk n bases members => by
      simp only [StructDecl.visit, totalMemberCount, List.length_append,
        List.length_map, visitBases_length bases]
      omega

theorem visitBases_length : ∀ l : List StructDecl,
    (visitBases l).length = basesMemberCount l
  | [] => rfl
  | b :: rest => by
      simp only [visitBases, basesMemberCount, List.length_append,
        visit_length b, visitBases_length rest]

end

theorem toStringCases_mem (en : String) (p : String × Int)
    (l : List (String × Int)) (hv : (l.map Prod.snd).Nodup) (hp : p ∈ l) :
    toStringCases en p.2 l = .ok p.1 := by
  induction l with
  | nil => cases hp
  | cons f rest ih =>
      simp only [List.map_cons, List.nodup_cons] at hv
      rcases List.mem_cons.mp hp with h | h
      · subst h; simp [toStringCases]
      · have hne : f.2 ≠ p.2 := by
          intro he
          exact hv.1 (he ▸ List.mem_map_of_mem Prod.snd h)
        simp [toStringCases, hne, ih hv.2 h]

theorem fromStringScan_mem (en : String) (p : String × Int)
    (l : List (String × Int)) (hn : (l.map Prod.fst).Nodup) (hp : p ∈ l) :
    fromStringScan en p.1 l = .ok p.2 := by
  induction l with
  | nil => cases hp
  | cons f rest ih =>
      simp only [List.map_cons, List.nodup_cons] at hn
      rcases List.mem_cons.mp hp with h | h
      · subst h; simp [fromStringScan]
      · have hne : f.1 ≠ p.1 := by
          intro he
          exact hn.1 (he ▸ List.mem_map_of_mem Prod.fst h)
        simp [fromStringScan, hne, ih hn.2 h]

theorem toStringCasesRet_none (i : Int) (l : List (String × Int))
    (hv : ∀ p ∈ l, p.2 ≠ i) : toStringCasesRet i l = none := by
  induction l with
  | nil => rfl
  | cons f rest ih =>
      have hf : f.2 ≠ i := hv f (by simp)
      simpa [toStringCasesRet, hf] using ih fun p hp => hv p (by simp [hp])

theorem fromStringScanRet_zero (s : String) (l : List (String × Int))
    (hn : ∀ p ∈ l, p.1 ≠ s) : fromStringScanRet s l = 0 := by
  induction l with
  | nil => rfl
  | cons f rest ih =>
      have hf : f.1 ≠ s := hn f (by simp)
      simpa [fromStringScanRet, hf] using ih fun p hp => hn p (by simp [hp])

/-! The claim theorems. -/

/-- C1: for a registered struct-like type with declared bases and own
members, visit invokes the visitor exactly total_member_count times, in the
order of the declared base list, each base recursively (so base members
come before derived ones), then the own members in declaration order; each
own-member invocation passes the declared name, the static member type, and
an accessor bound to that exact member of the enclosing type. -/
theorem visit_order_and_count (n : String) (bases : List StructDecl)
    (ms : List Member) :
    (StructDecl.visit (.mk n bases ms)).length =
      totalMemberCount (.mk n bases ms) ∧
    StructDecl.visit (.mk n bases ms) =
      (bases.map StructDecl.visit).flatten ++
        ms.map (fun m => VisitEvent.mk m.name m.ty n (n, m.name)) := by
  refine ⟨visit_length _, ?_⟩
  simp [StructDecl.visit, visitBases_eq_join]

/-- C2: local_member_count is the number of own members, and
total_member_count is local_member_count plus the sum of every declared
base's total_member_count, the recursion reaching through every
inheritance level. -/
theorem member_count_invariant (n : String) (bases : List StructDecl)
    (ms : List Member) :
    localMemberCount (.mk n bases ms) = ms.length ∧
    totalMemberCount (.mk n bases ms) =
      localMemberCount (.mk n bases ms) +
        (bases.map totalMemberCount).sum := by
  exact ⟨rfl, by simp [totalMemberCount, localMemberCount, basesMemberCount_eq_sum]⟩

/-- C3: for a registered enum whose enumerator names are pairwise distinct
and whose values are pairwise distinct, to_string maps each enumerator
value to its name and from_string maps each name back to its value. -/
theorem enum_round_trip (e : EnumDecl) (p : String × Int)
    (hn : (e.fields.map Prod.fst).Nodup)
    (hv : (e.fields.map Prod.snd).Nodup)
    (hp : p ∈ e.fields) :
    e.to_string p.2 = .ok p.1 ∧ e.from_string p.1 = .ok p.2 :=
  ⟨toStringCases_mem e.name p e.fields hv hp,
   fromStringScan_mem e.name p e.fields hn hp⟩

theorem enum_round_trip_witness :
    colorDecl.to_string 1 = .ok "Green" ∧
      colorDecl.from_string "Green" = .ok 1 :=
  enum_round_trip colorDecl ("Green", 1) (by decide) (by decide) (by decide)

/-- C4: to_string raises the bad-enum-cast failure carrying the offending
value and the registered enum name exactly when the value matches no
registered enumerator value, and any failure it raises is that one. -/
theorem to_string_error_iff (e : EnumDecl) (i : Int) :
    (e.to_string i = .error (.badValue i e.name) ↔
      ∀ p ∈ e.fields, p.2 ≠ i) ∧
    ∀ err, e.to_string i = .error err → err = .badValue i e.name := by
  unfold EnumDecl.to_string
  induction e.fields with
  | nil =>
      refine ⟨⟨fun _ => by simp, fun _ => rfl⟩, fun err h => ?_⟩
      simpa [toStringCases] using h.symm
  | cons f rest ih =>
      by_cases hf : f.2 = i
      · refine ⟨⟨fun h => ?_, fun h => absurd hf (h f (by simp))⟩,
          fun err h => ?_⟩
        · simp [toStringCases, hf] at h
        · simp [toStringCases, hf] at h
      · constructor
        · constructor
          · intro h p hp
            rcases List.mem_cons.mp hp with hp | hp
            · exact hp ▸ hf
            · exact ih.1.mp (by simpa [toStringCases, hf] using h) p hp
          · intro h
            simpa [toStringCases, hf] using ih.1.mpr fun p hp => h p (by simp [hp])
        · intro err h
          exact ih.2 err (by simpa [toStringCases, hf] using h)

theorem to_string_error_witness :
    colorDecl.to_string 5 = .error (.badValue 5 "Color") :=
  (to_string_error_iff colorDecl 5).1.mpr (by decide)

/-- C5: from_string raises the bad-enum-cast failure carrying the offending
string and the registered enum name exactly when the string matches no
registered enumerator name, and any failure it raises is that one. -/
theorem from_string_error_iff (e : EnumDecl) (s : String) :
    (e.from_string s = .error (.badName s e.name) ↔
      ∀ p ∈ e.fields, p.1 ≠ s) ∧
    ∀ err, e.from_string s = .error err → err = .badName s e.name := by
  unfold EnumDecl.from_string
  induction e.fields with
  | nil =>
      refine ⟨⟨fun _ => by simp, fun _ => rfl⟩, fun err h => ?_⟩
      simpa [fromStringScan] using h.symm
  | cons f rest ih =>
      by_cases hf : f.1 = s
      · refine ⟨⟨fun h => ?_, fun h => absurd hf (h f (by simp))⟩,
          fun err h => ?_⟩
        · simp [fromStringScan, hf] at h
        · simp [fromStringScan, hf] at h
      · constructor
        · constructor
          · intro h p hp
            rcases List.mem_cons.mp hp with hp | hp
            · exact hp ▸ hf
            · exact ih.1.mp (by simpa [fromStringScan, hf] using h) p hp
          · intro h
            simpa [fromStringScan, hf] using ih.1.mpr fun p hp => h p (by simp [hp])
        · intro err h
          exact ih.2 err (by simpa [fromStringScan, hf] using h)

theorem from_string_error_witness :
    colorDecl.from_string "Purple" = .error (.badName "Purple" "Color") :=
  (from_string_error_iff colorDecl "Purple").1.mpr (by decide)

/-- C6: from_string is a linear scan of the registered enumerators in
declaration order under exact, case-sensitive string equality, returning
the value of the first enumerator whose name equals the argument, and the
bad-enum-cast failure when none does. -/
theorem from_string_first_match (e : EnumDecl) (s : String) :
    e.from_string s =
      match e.fields.find? (fun p => p.1 == s) with
      | some p => .ok p.2
      | none => .error (.badName s e.name) := by
  unfold EnumDecl.from_string
  induction e.fields with
  | nil => rfl
  | cons f rest ih =>
      by_cases hf : f.1 = s
      · simp [fromStringScan, List.find?, hf]
      · simpa [fromStringScan, List.find?, hf, beq_eq_false_iff_ne.mpr hf]
          using ih

/-- C7: is_reflectable is true exactly for registered types: the primary
reflector template reports is_defined false, and both the struct and the
enum registration macros produce a reflector reporting is_defined true. -/
theorem is_reflectable_iff_registered (r : Option Registration) :
    (is_reflectable r = true ↔ r.isSome = true) ∧
    (reflector none).is_defined = false ∧
    (∀ d, (reflector (some (.structReg d))).is_defined = true) ∧
    (∀ e, (reflector (some (.enumReg e))).is_defined = true) := by
  refine ⟨?_, rfl, fun d => rfl, fun e => rfl⟩
  cases r with
  | none => simp [is_reflectable, reflector]
  | some reg => cases reg <;> simp [is_reflectable, reflector]

theorem is_reflectable_iff_registered_witness :
    is_reflectable (some (.enumReg colorDecl)) = true :=
  (is_reflectable_iff_registered (some (.enumReg colorDecl))).2.2.2 colorDecl

/-- C8 counterexample: querying is_reflectable on an unregistered type is
not rejected at build time; the primary reflector template itself declares
is_defined (as false_type), so the query compiles and evaluates, answering
false. -/
theorem is_reflectable_unregistered_answers :
    is_reflectable none = false ∧ (reflector none).is_defined = false :=
  ⟨rfl, rfl⟩

/-- C8 amended: querying is_reflectable on an unregistered type compiles
and answers false, because the primary reflector template defines
is_defined as false_type; what the primary template leaves undeclared for
unregistered types, so that using it is rejected at build time, is the
member_count_enum constants and the visit operation. -/
theorem unregistered_query_behavior :
    is_reflectable none = false ∧
    (reflector none).memberCounts = none ∧
    (reflector none).structVisit = none ∧
    (reflector none).enumVisit = none :=
  ⟨rfl, rfl, rfl, rfl⟩

/-- C9: the enum visit invokes the visitor exactly once per registered
enumerator, in declaration order, and the invocation at each position
passes that enumerator's declared name and its own defined underlying
value, unchanged by the registry. -/
theorem enum_visit_trace (e : EnumDecl) :
    e.visitTrace.length = e.fields.length ∧
    ∀ i : Nat, e.visitTrace[i]? =
      (e.fields[i]?).map (fun f => EnumVisitEvent.mk f.2 f.1) := by
  refine ⟨by simp [EnumDecl.visitTrace], fun i => ?_⟩
  simp [EnumDecl.visitTrace]

/-- C10: if the bad-enum-cast signal returned control instead of aborting,
the code after the call would run: to_string on a value matching no
enumerator would reach the trailing return of the null pointer, and
from_string on a string matching no enumerator name would reach the
trailing return of the value-initialized enum, whose value is zero. -/
theorem bad_cast_fallthrough (e : EnumDecl) (i : Int) (s : String)
    (hv : ∀ p ∈ e.fields, p.2 ≠ i) (hn : ∀ p ∈ e.fields, p.1 ≠ s) :
    e.toStringRet i = none ∧ e.fromStringRet s = 0 :=
  ⟨toStringCasesRet_none i e.fields hv, fromStringScanRet_zero s e.fields hn⟩

theorem bad_cast_fallthrough_witness :
    colorDecl.toStringRet 5 = none ∧ colorDecl.fromStringRet "Purple" = 0 :=
  bad_cast_fallthrough colorDecl 5 "Purple" (by decide) (by decide)

end FcReflect
